import Mathlib

/-!
Shallow embedding of `src/bandwidth.py` (MyRDP): the sliding-window bandwidth
monitor, the quality-level ladder construction, the human-readable formatter,
and the hysteresis state machine, together with theorems settling the
specification claims about them.

Modelling conventions:
* Python timestamps (`time.time()` floats) are modelled as exact rationals `ℚ`;
  byte counts and bandwidth figures as integers `ℤ`.
* Python `int(x)` truncation toward zero is `ratTrunc`.
* Python `f"{x:.0f}"` rounds half-to-even; this is `roundHalfEven`.
* A Python `ZeroDivisionError` is modelled by an `Option` result being `none`.
-/

namespace MyRDP

/-- Python `int(q)`: truncation of a rational toward zero. -/
def ratTrunc (q : ℚ) : ℤ := if q < 0 then ⌈q⌉ else ⌊q⌋

theorem ratTrunc_intCast (n : ℤ) : ratTrunc (n : ℚ) = n := by
  simp [ratTrunc]

/-! ## BandwidthMonitor (src/bandwidth.py lines 10-59)

State: `window_size`, parallel deques `bytes_received` and `timestamps`,
oldest first.  The lock is a concurrency artefact with no sequential
behaviour and is not part of the functional model. -/

structure BandwidthMonitor where
  window_size : ℚ
  bytes_received : List ℤ
  timestamps : List ℚ

/-- `BandwidthMonitor.__init__`: empty deques. -/
def initMonitor (window_size : ℚ) : BandwidthMonitor :=
  { window_size := window_size, bytes_received := [], timestamps := [] }

/-- The eviction loop of `register_received_bytes` (lines 45-47):
`while len(timestamps) > 0 and current_time - timestamps[0] > window_size`,
pop the front of both deques.  Popping the front of `bytes` is `List.tail`. -/
def evictLoop (window_size current_time : ℚ) :
    List ℚ → List ℤ → List ℚ × List ℤ
  | t :: ts, bs =>
      if current_time - t > window_size then evictLoop window_size current_time ts bs.tail
      else (t :: ts, bs)
  | [], bs => ([], bs)

/-- `BandwidthMonitor.register_received_bytes` (lines 33-47), with the clock
reading `time.time()` passed explicitly as `current_time`: append the sample
to both deques, then run the eviction loop. -/
def register_received_bytes (m : BandwidthMonitor) (received_bytes : ℤ)
    (current_time : ℚ) : BandwidthMonitor :=
  let p := evictLoop m.window_size current_time
    (m.timestamps ++ [current_time]) (m.bytes_received ++ [received_bytes])
  { m with timestamps := p.1, bytes_received := p.2 }

/-- `BandwidthMonitor.get_bandwidth` (lines 49-59):
`elapsed_time = timestamps[-1] - timestamps[0] if len(timestamps) > 1 else 1`,
then `int(sum(bytes_received) / elapsed_time)`.  A zero divisor raises
`ZeroDivisionError` in Python, modelled as `none`. -/
def get_bandwidth (m : BandwidthMonitor) : Option ℤ :=
  let elapsed_time : ℚ :=
    if m.timestamps.length > 1 then m.timestamps.getLast! - m.timestamps.head! else 1
  let total_bytes_received : ℤ := m.bytes_received.sum
  if elapsed_time = 0 then none
  else some (ratTrunc ((total_bytes_received : ℚ) / elapsed_time))

/-- A whole history of `register_received_bytes` calls, each event being
`(current_time, received_bytes)`, applied to a fresh monitor. -/
def runReports (window_size : ℚ) (events : List (ℚ × ℤ)) : BandwidthMonitor :=
  events.foldl (fun m e => register_received_bytes m e.2 e.1) (initMonitor window_size)

/-! ## Quality-level ladder (src/bandwidth.py lines 62-93)

`BandwidthCategoryMeta.__new__` computes
`int(width * height * fps * color_depth * 0.07 / 8)` for every combination of
a resolution, `fps ∈ {24, 30}` and `color_depth ∈ {16, 32}`, collects the
values into a set, sorts ascending, and names the members `BANDWIDTH_i` in
that order.  The resolution catalog (the external `Resolution` enumeration)
is a parameter here; `0.07` is taken as the exact rational `7/100`. -/

/-- The multiset of per-triple bandwidth values, in iteration order
(resolutions outermost, then `fps in (24, 30)`, then `color_depth in
(16, 32)`), duplicates included. -/
def ladderRaw (resolutions : List (ℕ × ℕ)) : List ℤ :=
  resolutions.flatMap (fun r =>
    ([24, 30] : List ℕ).flatMap (fun (fps : ℕ) =>
      ([16, 32] : List ℕ).map (fun (color_depth : ℕ) =>
        ratTrunc ((r.1 * r.2 * fps * color_depth : ℚ) * (7 / 100) / 8))))

/-- The `set` collection plus ascending sort of the metaclass. -/
def buildLadder (resolutions : List (ℕ × ℕ)) : List ℤ :=
  (ladderRaw resolutions).toFinset.sort (· ≤ ·)

/-! ## BandwidthFormatter (src/bandwidth.py lines 96-106) -/

/-- Python `f"{q:.0f}"` rounding: nearest integer, ties to the even one. -/
def roundHalfEven (q : ℚ) : ℤ :=
  if q - (⌊q⌋ : ℚ) < 1 / 2 then ⌊q⌋
  else if 1 / 2 < q - (⌊q⌋ : ℚ) then ⌊q⌋ + 1
  else if ⌊q⌋ % 2 = 0 then ⌊q⌋ else ⌊q⌋ + 1

namespace BandwidthFormatter

/-- `BandwidthFormatter.format` (lines 97-106). -/
def format (bandwidth : ℤ) : String :=
  if bandwidth < 1000 then toString bandwidth ++ " Bps"
  else if bandwidth < 1000 * 1000 then
    toString (roundHalfEven ((bandwidth : ℚ) / 1000)) ++ " Kbps"
  else if bandwidth < 1000 * 1000 * 1000 then
    toString (roundHalfEven ((bandwidth : ℚ) / (1000 * 1000))) ++ " Mbps"
  else
    toString (roundHalfEven ((bandwidth : ℚ) / (1000 * 1000 * 1000))) ++ " Gbps"

end BandwidthFormatter

/-! ## BandwidthStateMachine (src/bandwidth.py lines 122-181)

The state is the current index into the ladder (the source stores the
category member; `categories.index` recovers the index) plus the observer
list.  Observer callbacks are opaque handles of type `α`; an invocation is
recorded as the pair (observer, argument), so `update_state` returns the new
machine together with the list of observer invocations it performs, in
order. -/

structure BandwidthStateMachine (α : Type) where
  currentIndex : ℕ
  observers : List α

/-- `BandwidthStateMachine.__init__`: state `BANDWIDTH_0` (index 0), no
observers. -/
def initStateMachine (α : Type) : BandwidthStateMachine α :=
  { currentIndex := 0, observers := [] }

/-- `BandwidthStateMachine.register_observer` (lines 139-146): append. -/
def register_observer (m : BandwidthStateMachine α) (observer : α) :
    BandwidthStateMachine α :=
  { m with observers := m.observers ++ [observer] }

/-- `BandwidthStateMachine.notify_observers` (lines 148-153): call every
observer, in list order, with the current state. -/
def notify_observers (m : BandwidthStateMachine α) : List (α × ℕ) :=
  m.observers.map (fun observer => (observer, m.currentIndex))

/-- The index transition of `update_state` (lines 159-169).
`lower_index = max(current_index - 1, 0)` over Python ints coincides with
truncated subtraction `i - 1` on `ℕ`; `upper_index = min(current_index + 1,
len(categories) - 1)`.  `values.getD i 0` is `categories[i].value`. -/
def updateIndex (values : List ℤ) (i : ℕ) (bw : ℤ) : ℕ :=
  if bw < values.getD i 0 then i - 1
  else if 2 * values.getD i 0 ≤ bw then min (i + 1) (values.length - 1)
  else i

/-- `BandwidthStateMachine.update_state` (lines 155-172): compute the new
state, then notify observers exactly when it differs from the previous
state.  Returns the machine after the call and the observer invocations. -/
def update_state (values : List ℤ) (m : BandwidthStateMachine α) (bw : ℤ) :
    BandwidthStateMachine α × List (α × ℕ) :=
  let next : BandwidthStateMachine α :=
    { m with currentIndex := updateIndex values m.currentIndex bw }
  if next.currentIndex ≠ m.currentIndex then (next, notify_observers next)
  else (next, [])

/-! ## Theorems -/

/-- Claim C10: with zero retained samples (for example a fresh monitor before
the first report), `get_bandwidth` returns 0 and does not raise: the length
guard selects the sentinel elapsed time 1 and the empty sum is 0. -/
theorem c10_empty_estimate (window_size : ℚ) :
    get_bandwidth (initMonitor window_size) = some 0 := by
  simp [get_bandwidth, initMonitor, ratTrunc]

/-- Claim C7: when exactly one sample `(t, b)` is retained, `get_bandwidth`
returns that sample's byte count: the elapsed-time divisor is the floor
value 1. -/
theorem c7_single_sample (window_size t : ℚ) (b : ℤ) :
    get_bandwidth ⟨window_size, [b], [t]⟩ = some b := by
  simp [get_bandwidth, ratTrunc_intCast]

/-- Claim C1: `update_state`'s index transition, for every integer
throughput `bw` (zero and negative included): demote to `max(i-1, 0)`
(truncated `i - 1` on `ℕ`) when `bw < v[i]`, promote to `min(i+1, N-1)` when
`bw ≥ 2·v[i]`, otherwise stay; in particular, for the positive ladder values
the program uses, `bw = v[i]` stays and `bw = 2·v[i]` promotes; the result is
always a valid index, so no input is rejected. -/
theorem c1_transition_rule (values : List ℤ) (i : ℕ) (bw : ℤ)
    (h : i < values.length) :
    (bw < values.getD i 0 → updateIndex values i bw = i - 1) ∧
    (¬bw < values.getD i 0 → 2 * values.getD i 0 ≤ bw →
      updateIndex values i bw = min (i + 1) (values.length - 1)) ∧
    (¬bw < values.getD i 0 → ¬2 * values.getD i 0 ≤ bw →
      updateIndex values i bw = i) ∧
    (0 < values.getD i 0 → bw = values.getD i 0 → updateIndex values i bw = i) ∧
    (0 < values.getD i 0 → bw = 2 * values.getD i 0 →
      updateIndex values i bw = min (i + 1) (values.length - 1)) ∧
    updateIndex values i bw < values.length := by
  refine ⟨?_, ?_, ?_, ?_, ?_, ?_⟩
  · intro h1; rw [updateIndex, if_pos h1]
  · intro h1 h2; rw [updateIndex, if_neg h1, if_pos h2]
  · intro h1 h2; rw [updateIndex, if_neg h1, if_neg h2]
  · intro hv he
    rw [updateIndex, if_neg (by omega), if_neg (by omega)]
  · intro hv he
    rw [updateIndex, if_neg (by omega), if_pos (by omega)]
  · unfold updateIndex; split_ifs <;> omega

/-- Claim C1 witness: ladder `[100, 500, 2000]`, index 0, `bw = 200 = 2·v[0]`
promotes to index 1. -/
theorem c1_transition_rule_witness :
    (0 : ℕ) < ([100, 500, 2000] : List ℤ).length ∧
    updateIndex [100, 500, 2000] 0 200 = min (0 + 1) (([100, 500, 2000] : List ℤ).length - 1) :=
  ⟨by decide, (c1_transition_rule [100, 500, 2000] 0 200 (by decide)).2.2.2.2.1
    (by decide) (by decide)⟩

/-- Claim C5: a single `update_state` call moves the index to `i-1`, `i` or
`i+1` (clamped to `0..N-1` by the truncated subtraction and the `min`), and
the result stays in range, for every input throughput. -/
theorem c5_one_step (values : List ℤ) (i : ℕ) (bw : ℤ) (h : i < values.length) :
    (updateIndex values i bw = i - 1 ∨ updateIndex values i bw = i ∨
      updateIndex values i bw = i + 1) ∧
    updateIndex values i bw < values.length := by
  unfold updateIndex; split_ifs <;> omega

/-- Claim C5 witness: ladder `[100, 500, 2000]`, index 1, a throughput far
above every rung moves the index by exactly one. -/
theorem c5_one_step_witness :
    (1 : ℕ) < ([100, 500, 2000] : List ℤ).length ∧
    (updateIndex [100, 500, 2000] 1 1000000 = 1 - 1 ∨
      updateIndex [100, 500, 2000] 1 1000000 = 1 ∨
      updateIndex [100, 500, 2000] 1 1000000 = 1 + 1) :=
  ⟨by decide, (c5_one_step [100, 500, 2000] 1 1000000 (by decide)).1⟩

/-- Claim C4: if `update_state` changes the index, every registered observer
is invoked exactly once, synchronously, in registration order, with the new
level; if the index is unchanged — including a demotion attempt clamped at
index 0 — no observer is invoked (so repeating the same `bw` that left the
index unchanged again invokes nobody). -/
theorem c4_observer_notification (α : Type) (values : List ℤ)
    (m : BandwidthStateMachine α) (bw : ℤ) :
    ((update_state values m bw).1.currentIndex ≠ m.currentIndex →
      (update_state values m bw).2 =
        m.observers.map (fun observer => (observer, (update_state values m bw).1.currentIndex))) ∧
    ((update_state values m bw).1.currentIndex = m.currentIndex →
      (update_state values m bw).2 = []) ∧
    (update_state values m bw).1.observers = m.observers ∧
    (m.currentIndex = 0 → bw < values.getD 0 0 → (update_state values m bw).2 = []) := by
  by_cases hc : updateIndex values m.currentIndex bw = m.currentIndex
  · refine ⟨?_, ?_, ?_, ?_⟩ <;> simp [update_state, notify_observers, hc]
  · refine ⟨?_, ?_, ?_, ?_⟩
    · intro _; simp [update_state, notify_observers, hc]
    · intro h; exfalso; apply hc; simp [update_state, hc] at h
    · simp [update_state, hc]
    · intro h0 hbw
      exfalso; apply hc
      rw [h0, updateIndex, if_pos hbw]

/-- Claim C4 witness: ladder `[100, 500, 2000]`, one observer `7`, index 0,
`bw = 250 ≥ 2·100` promotes to index 1 and notifies the observer with the new
level's index, exactly once. -/
theorem c4_observer_notification_witness :
    (update_state [100, 500, 2000] (⟨0, [7]⟩ : BandwidthStateMachine ℕ) 250).1.currentIndex ≠ 0 ∧
    (update_state [100, 500, 2000] (⟨0, [7]⟩ : BandwidthStateMachine ℕ) 250).2 = [(7, 1)] :=
  ⟨by decide,
    (c4_observer_notification ℕ [100, 500, 2000] ⟨0, [7]⟩ 250).1 (by decide)⟩

/-- Claim C8: `BandwidthFormatter.format` is pure and follows the strict,
non-overlapping thresholds at 10^3, 10^6 and 10^9 with the matching suffixes,
the displayed quotient is the nearest integer to the exact quotient (ties to
even, as Python's `:.0f` rounds), and the three sample points evaluate to
`"999 Bps"`, `"1 Kbps"` and `"2 Mbps"`. -/
theorem c8_formatter (bandwidth : ℤ) :
    (bandwidth < 1000 →
      BandwidthFormatter.format bandwidth = toString bandwidth ++ " Bps") ∧
    (1000 ≤ bandwidth → bandwidth < 1000000 →
      BandwidthFormatter.format bandwidth =
        toString (roundHalfEven ((bandwidth : ℚ) / 1000)) ++ " Kbps") ∧
    (1000000 ≤ bandwidth → bandwidth < 1000000000 →
      BandwidthFormatter.format bandwidth =
        toString (roundHalfEven ((bandwidth : ℚ) / 1000000)) ++ " Mbps") ∧
    (1000000000 ≤ bandwidth →
      BandwidthFormatter.format bandwidth =
        toString (roundHalfEven ((bandwidth : ℚ) / 1000000000)) ++ " Gbps") ∧
    (∀ q : ℚ, |q - (roundHalfEven q : ℚ)| ≤ 1 / 2) ∧
    BandwidthFormatter.format 999 = "999 Bps" ∧
    BandwidthFormatter.format 1000 = "1 Kbps" ∧
    BandwidthFormatter.format 1500000 = "2 Mbps" := by
  have hround : ∀ q : ℚ, |q - (roundHalfEven q : ℚ)| ≤ 1 / 2 := by
    intro q
    have hf1 : (⌊q⌋ : ℚ) ≤ q := Int.floor_le q
    have hf2 : q < ⌊q⌋ + 1 := Int.lt_floor_add_one q
    rw [roundHalfEven]
    split_ifs with h1 h2 h3 <;>
      · rw [abs_le]; push_cast; constructor <;> linarith
  refine ⟨?_, ?_, ?_, ?_, hround, ?_, ?_, ?_⟩
  · intro h1
    rw [BandwidthFormatter.format, if_pos h1]
  · intro h1 h2
    rw [BandwidthFormatter.format, if_neg (by omega), if_pos (by omega)]
  · intro h1 h2
    rw [BandwidthFormatter.format, if_neg (by omega), if_neg (by omega),
      if_pos (by omega)]
    norm_num
  · intro h1
    rw [BandwidthFormatter.format, if_neg (by omega), if_neg (by omega),
      if_neg (by omega)]
    norm_num
  · decide
  · rw [BandwidthFormatter.format, if_neg (by omega), if_pos (by omega)]
    norm_num
    have h : roundHalfEven (1 : ℚ) = 1 := by norm_num [roundHalfEven]
    rw [h]
    decide
  · rw [BandwidthFormatter.format, if_neg (by omega), if_neg (by omega),
      if_pos (by omega)]
    norm_num
    have h : roundHalfEven ((3 : ℚ) / 2) = 2 := by norm_num [roundHalfEven]
    rw [h]
    decide

/-- Claim C8 witness: the "Bps" branch applied at the concrete boundary value
999. -/
theorem c8_formatter_witness :
    (999 : ℤ) < 1000 ∧ BandwidthFormatter.format 999 = toString (999 : ℤ) ++ " Bps" :=
  ⟨by decide, (c8_formatter 999).1 (by decide)⟩

/-- Claim C2 counterexample: the code has no `max(1, ...)` floor on the
elapsed time of a multi-sample window.  Reporting 10 bytes at time 0 and 10
bytes at time 1/2 retains both samples; `get_bandwidth` divides by the raw
span 1/2 and returns 40, while the claimed formula `sum / max(1, span)`
gives 20. -/
theorem c2_counterexample :
    get_bandwidth (runReports 60 [(0, 10), (1/2, 10)]) = some 40 ∧
    ratTrunc ((20 : ℚ) / max 1 ((1/2 : ℚ) - 0)) = 20 ∧ (40 : ℤ) ≠ 20 := by
  have hrun : runReports 60 [(0, 10), (1/2, 10)] =
      ⟨60, [10, 10], [0, 1/2]⟩ := by
    norm_num [runReports, register_received_bytes, evictLoop, initMonitor]
  refine ⟨?_, by norm_num [ratTrunc], by decide⟩
  have h2 : (([0, 1/2] : List ℚ)).getLast! = 1/2 := rfl
  have h3 : (([0, 1/2] : List ℚ)).head! = 0 := rfl
  rw [hrun]
  simp only [get_bandwidth, h2, h3]
  norm_num [ratTrunc]

/-- Claim C2 as amended: `get_bandwidth` divides the retained byte total by
the raw span `lastTimestamp - firstTimestamp` (no `max(1, ·)` floor) when
more than one sample is retained, and by the sentinel 1 otherwise; when more
than one sample is retained and the span is zero the division faults
(modelled as `none`). -/
theorem c2_amended_estimate (m : BandwidthMonitor) :
    (m.timestamps.length ≤ 1 → get_bandwidth m = some m.bytes_received.sum) ∧
    (1 < m.timestamps.length → m.timestamps.getLast! ≠ m.timestamps.head! →
      get_bandwidth m = some (ratTrunc ((m.bytes_received.sum : ℚ) /
        (m.timestamps.getLast! - m.timestamps.head!)))) ∧
    (1 < m.timestamps.length → m.timestamps.getLast! = m.timestamps.head! →
      get_bandwidth m = none) := by
  refine ⟨?_, ?_, ?_⟩
  · intro h
    have hlen : ¬ (m.timestamps.length > 1) := by omega
    simp only [get_bandwidth, if_neg hlen]
    rw [if_neg (one_ne_zero), div_one, ratTrunc_intCast]
  · intro h hne
    have hsub : m.timestamps.getLast! - m.timestamps.head! ≠ 0 := sub_ne_zero.mpr hne
    simp only [get_bandwidth, if_pos h, if_neg hsub]
  · intro h heq
    simp only [get_bandwidth, if_pos h, heq, sub_self, if_pos]

/-- Claim C2 witness: two samples at times 0 and 2 with 10 bytes each; the
span is 2 ≠ 0 and the estimate is the total divided by the raw span. -/
theorem c2_amended_estimate_witness :
    1 < ([0, 2] : List ℚ).length ∧
    get_bandwidth ⟨60, [10, 10], [0, 2]⟩ =
      some (ratTrunc ((([10, 10] : List ℤ).sum : ℚ) /
        (([0, 2] : List ℚ).getLast! - ([0, 2] : List ℚ).head!))) :=
  ⟨by decide,
    (c2_amended_estimate ⟨60, [10, 10], [0, 2]⟩).2.1 (by decide) (by decide)⟩

/-! ### Eviction-window lemmas for claim C3 -/

theorem evictLoop_mem (window_size current_time : ℚ) :
    ∀ (ts : List ℚ) (bs : List ℤ) (t : ℚ),
      t ∈ (evictLoop window_size current_time ts bs).1 → t ∈ ts := by
  intro ts
  induction ts with
  | nil => intro bs t ht; simp [evictLoop] at ht
  | cons a ts ih =>
      intro bs t ht
      by_cases h : current_time - a > window_size
      · rw [evictLoop, if_pos h] at ht
        exact List.mem_cons_of_mem a (ih bs.tail t ht)
      · rw [evictLoop, if_neg h] at ht
        exact ht

theorem evictLoop_chain (window_size current_time : ℚ) :
    ∀ (ts : List ℚ) (bs : List ℤ), ts.Chain' (· ≤ ·) →
      (evictLoop window_size current_time ts bs).1.Chain' (· ≤ ·) := by
  intro ts
  induction ts with
  | nil => intro bs _; simp [evictLoop]
  | cons a ts ih =>
      intro bs hch
      by_cases h : current_time - a > window_size
      · rw [evictLoop, if_pos h]
        exact ih bs.tail hch.tail
      · rw [evictLoop, if_neg h]
        exact hch

theorem evictLoop_age (window_size current_time : ℚ) :
    ∀ (ts : List ℚ) (bs : List ℤ), ts.Chain' (· ≤ ·) →
      ∀ t ∈ (evictLoop window_size current_time ts bs).1,
        current_time - t ≤ window_size := by
  intro ts
  induction ts with
  | nil => intro bs _ t ht; simp [evictLoop] at ht
  | cons a ts ih =>
      intro bs hch t ht
      by_cases h : current_time - a > window_size
      · rw [evictLoop, if_pos h] at ht
        exact ih bs.tail hch.tail t ht
      · rw [evictLoop, if_neg h] at ht
        push_neg at h
        rcases List.mem_cons.mp ht with rfl | hmem
        · exact h
        · have hat : a ≤ t :=
            List.rel_of_pairwise_cons (List.chain'_iff_pairwise.mp hch) hmem
          linarith

theorem register_sorted_inv (m : BandwidthMonitor) (b : ℤ) (current_time : ℚ)
    (hch : m.timestamps.Chain' (· ≤ ·))
    (hub : ∀ t ∈ m.timestamps, t ≤ current_time) :
    (∀ t ∈ (register_received_bytes m b current_time).timestamps,
      current_time - t ≤ m.window_size) ∧
    (register_received_bytes m b current_time).timestamps.Chain' (· ≤ ·) ∧
    (∀ t ∈ (register_received_bytes m b current_time).timestamps,
      t ≤ current_time) := by
  have happ : (m.timestamps ++ [current_time]).Chain' (· ≤ ·) := by
    apply List.Chain'.append hch (List.chain'_singleton current_time)
    intro x hx y hy
    simp only [List.head?_cons, Option.mem_def, Option.some.injEq] at hy
    subst hy
    exact hub x (List.mem_of_mem_getLast? hx)
  refine ⟨?_, ?_, ?_⟩
  · intro t ht
    exact evictLoop_age m.window_size current_time _ _ happ t ht
  · exact evictLoop_chain m.window_size current_time _ _ happ
  · intro t ht
    have := evictLoop_mem m.window_size current_time _ _ t ht
    rcases List.mem_append.mp this with h1 | h1
    · exact hub t h1
    · simp only [List.mem_singleton] at h1
      simp [h1]

theorem register_window (m : BandwidthMonitor) (b : ℤ) (current_time : ℚ) :
    (register_received_bytes m b current_time).window_size = m.window_size := rfl

theorem foldl_reports_window :
    ∀ (events : List (ℚ × ℤ)) (m : BandwidthMonitor),
      (events.foldl (fun m e => register_received_bytes m e.2 e.1) m).window_size =
        m.window_size := by
  intro events
  induction events with
  | nil => intro m; rfl
  | cons e evs ih =>
      intro m
      rw [List.foldl_cons, ih, register_window]

theorem foldl_reports_inv :
    ∀ (events : List (ℚ × ℤ)) (m : BandwidthMonitor),
      (events.map Prod.fst).Chain' (· ≤ ·) →
      m.timestamps.Chain' (· ≤ ·) →
      (∀ t ∈ m.timestamps, ∀ s ∈ events.map Prod.fst, t ≤ s) →
      (events.foldl (fun m e => register_received_bytes m e.2 e.1) m).timestamps.Chain' (· ≤ ·) ∧
      ∀ t ∈ (events.foldl (fun m e => register_received_bytes m e.2 e.1) m).timestamps,
        t ∈ m.timestamps ∨ t ∈ events.map Prod.fst := by
  intro events
  induction events with
  | nil =>
      intro m _ hch _
      exact ⟨hch, fun t ht => Or.inl ht⟩
  | cons e evs ih =>
      intro m hche hch hcross
      rw [List.map_cons] at hche
      have hub : ∀ t ∈ m.timestamps, t ≤ e.1 := by
        intro t ht
        exact hcross t ht e.1 (by simp)
      have hreg := register_sorted_inv m e.2 e.1 hch hub
      have hcross2 : ∀ t ∈ (register_received_bytes m e.2 e.1).timestamps,
          ∀ s ∈ evs.map Prod.fst, t ≤ s := by
        intro t ht s hs
        have hts : t ≤ e.1 := hreg.2.2 t ht
        have hes : e.1 ≤ s :=
          List.rel_of_pairwise_cons (List.chain'_iff_pairwise.mp hche) hs
        linarith
      have hmain := ih (register_received_bytes m e.2 e.1) hche.tail hreg.2.1 hcross2
      rw [List.foldl_cons]
      refine ⟨hmain.1, ?_⟩
      intro t ht
      rcases hmain.2 t ht with h1 | h1
      · have h2 := evictLoop_mem m.window_size e.1 _ _ t h1
        rcases List.mem_append.mp h2 with h3 | h3
        · exact Or.inl h3
        · simp only [List.mem_singleton] at h3
          right
          simp [h3]
      · right
        rw [List.map_cons]
        exact List.mem_cons_of_mem _ h1

/-- Claim C3 counterexample: a sample whose age exceeds the window at the
time `get_bandwidth` is called can still fully determine the estimate.
Report 10 bytes at time 0 into a 60-second window and call the estimator at
time 100: the sample is 100 seconds old — older than the window — yet the
estimate is 10, not 0, because `get_bandwidth` performs no eviction and
reads no clock; only `register_received_bytes` evicts. -/
theorem c3_counterexample :
    (100 : ℚ) - 0 > 60 ∧
    get_bandwidth (runReports 60 [((0 : ℚ), (10 : ℤ))]) = some 10 ∧
    some (10 : ℤ) ≠ some 0 := by
  have hrun : runReports 60 [((0 : ℚ), (10 : ℤ))] = ⟨60, [10], [0]⟩ := by
    norm_num [runReports, register_received_bytes, evictLoop, initMonitor]
  refine ⟨by norm_num, ?_, by decide⟩
  rw [hrun]
  exact c7_single_sample 60 0 10

/-- Claim C3 as amended: eviction happens only inside
`register_received_bytes`.  For every sequence of reports at non-decreasing
times, after the final report at time `now` every retained sample satisfies
`now - timestamp ≤ windowSize`; hence a sample whose age exceeded the window
at the time of the most recent report is evicted and never contributes to a
later estimate.  (A sample may still exceed the window's age at the time
`get_bandwidth` is called, as the counterexample shows.) -/
theorem c3_amended_window_invariant (window_size : ℚ) (events : List (ℚ × ℤ))
    (now : ℚ) (b : ℤ)
    (hch : ((events ++ [(now, b)]).map Prod.fst).Chain' (· ≤ ·)) :
    ∀ t ∈ (runReports window_size (events ++ [(now, b)])).timestamps,
      now - t ≤ window_size := by
  have hfold : runReports window_size (events ++ [(now, b)]) =
      register_received_bytes (runReports window_size events) b now := by
    simp [runReports, List.foldl_append]
  rw [List.map_append, List.map_cons, List.map_nil] at hch
  have hche : (events.map Prod.fst).Chain' (· ≤ ·) := (List.chain'_append.mp hch).1
  have hinv := foldl_reports_inv events (initMonitor window_size)
    hche (by simp [initMonitor]) (by simp [initMonitor])
  have hub : ∀ t ∈ (runReports window_size events).timestamps, t ≤ now := by
    intro t ht
    rcases hinv.2 t ht with h1 | h1
    · simp [initMonitor] at h1
    · have hp := List.chain'_iff_pairwise.mp hch
      exact (List.pairwise_append.mp hp).2.2 t h1 now (by simp)
  have hreg := register_sorted_inv (runReports window_size events) b now hinv.1 hub
  intro t ht
  rw [hfold] at ht
  have hle := hreg.1 t ht
  have hw : (runReports window_size events).window_size = window_size := by
    rw [runReports, foldl_reports_window, initMonitor]
  rwa [hw] at hle

/-- Claim C3 witness: reports at times 0 and 100 (10 and 7 bytes) into a
60-second window; after the report at time 100 every retained sample is at
most 60 seconds old. -/
theorem c3_amended_window_invariant_witness :
    (([((0 : ℚ), (10 : ℤ))] ++ [((100 : ℚ), (7 : ℤ))]).map Prod.fst).Chain' (· ≤ ·) ∧
    ∀ t ∈ (runReports 60 ([((0 : ℚ), (10 : ℤ))] ++ [((100 : ℚ), (7 : ℤ))])).timestamps,
      (100 : ℚ) - t ≤ 60 := by
  have hch : (([((0 : ℚ), (10 : ℤ))] ++ [((100 : ℚ), (7 : ℤ))]).map Prod.fst).Chain' (· ≤ ·) := by
    simp only [List.map_append, List.map_cons, List.map_nil, List.singleton_append,
      List.chain'_cons, List.chain'_singleton, and_true]
    decide
  exact ⟨hch, c3_amended_window_invariant 60 [((0 : ℚ), (10 : ℤ))] 100 7 hch⟩

theorem ladderRaw_length (resolutions : List (ℕ × ℕ)) :
    (ladderRaw resolutions).length = resolutions.length * 4 := by
  induction resolutions with
  | nil => rfl
  | cons r rs ih =>
      rw [ladderRaw, List.flatMap_cons] at *
      rw [List.length_append, ih, List.length_cons]
      have h4 : (([24, 30] : List ℕ).flatMap (fun (fps : ℕ) =>
          ([16, 32] : List ℕ).map (fun (color_depth : ℕ) =>
            ratTrunc ((r.1 * r.2 * fps * color_depth : ℚ) * (7 / 100) / 8)))).length = 4 := rfl
      rw [h4]
      ring

/-- Claim C6: for every resolution catalog, the ladder built from all
`(resolution, fps ∈ {24, 30}, color_depth ∈ {16, 32})` triples by
deduplicating the computed values and sorting ascending is strictly
increasing, duplicate-free, of length at most `|resolutions| * 2 * 2`, and
contains exactly the per-triple values
`int(width * height * fps * color_depth * 0.07 / 8)`.  Indices are the
positions in the returned list, hence contiguous from 0, and the function is
deterministic. -/
theorem c6_ladder (resolutions : List (ℕ × ℕ)) :
    (buildLadder resolutions).Sorted (· < ·) ∧
    (buildLadder resolutions).Nodup ∧
    (buildLadder resolutions).length ≤ resolutions.length * 2 * 2 ∧
    ∀ x : ℤ, x ∈ buildLadder resolutions ↔
      ∃ r ∈ resolutions, ∃ fps ∈ ([24, 30] : List ℕ),
        ∃ color_depth ∈ ([16, 32] : List ℕ),
          x = ratTrunc ((r.1 * r.2 * fps * color_depth : ℚ) * (7 / 100) / 8) := by
  refine ⟨?_, ?_, ?_, ?_⟩
  · rw [buildLadder]; exact Finset.sort_sorted_lt _
  · rw [buildLadder]; exact Finset.sort_nodup _ _
  · rw [buildLadder, Finset.length_sort]
    calc (ladderRaw resolutions).toFinset.card ≤ (ladderRaw resolutions).length :=
          List.toFinset_card_le _
      _ = resolutions.length * 4 := ladderRaw_length resolutions
      _ ≤ resolutions.length * 2 * 2 := by omega
  · intro x
    rw [buildLadder, Finset.mem_sort, List.mem_toFinset, ladderRaw]
    constructor
    · intro hx
      rcases List.mem_flatMap.mp hx with ⟨r, hr, hx1⟩
      rcases List.mem_flatMap.mp hx1 with ⟨fps, hfps, hx2⟩
      rcases List.mem_map.mp hx2 with ⟨cd, hcd, rfl⟩
      exact ⟨r, hr, fps, hfps, cd, hcd, rfl⟩
    · rintro ⟨r, hr, fps, hfps, cd, hcd, rfl⟩
      exact List.mem_flatMap.mpr ⟨r, hr, List.mem_flatMap.mpr ⟨fps, hfps,
        List.mem_map.mpr ⟨cd, hcd, rfl⟩⟩⟩

end MyRDP
